import Mathlib

/-!
Verification of the paramdex-rs parameter-definition parser.

This file gives a shallow embedding of the library's three source files:
`src/lib.rs` (the data model), `src/deserialize/field_def_parse.rs` (the
field-definition line interpreter over pest token trees) and
`src/deserialize/mod.rs` (the XML-to-struct assembler), and proves the
specification claims about them.

Modelling conventions:
* Machine integers are `Nat` with explicit bounds at the points where Rust
  parses them (`u8`/`u32`/`usize::from_str` reject values outside the type's
  range; `usize` is taken at its 64-bit width).
* Rust `f64` default/metadata values are modelled exactly as decimal numbers
  `mantissa * 10 ^ exponent` (`DecimalFloat`); every numeral the claims
  mention is exactly representable in `f64`, so exact decimal arithmetic
  agrees with `f64::from_str` on all inputs considered here. The `f64`
  special forms `inf`/`NaN` are outside the modelled grammar.
* Rust panics (`expect`, `assert!`, `panic!`, `unreachable!`) are modelled as
  a distinguished `Outcome.panic` result carrying the source message, kept
  separate from the typed error channel `Outcome.err`.
* The pest grammar file `deserialize/fielddef.pest` is not part of the
  sources; the tokenizer is modelled from the specification's grammar
  (sections 4.1 and 6). Everything downstream of the token tree is
  translated from the Rust sources directly.
-/

namespace Paramdex

/-- A byte-offset span attached to tokens and errors (positions are counted
in characters of the input line). Mirrors `ErrSpan`/`pest::Span`. -/
structure Span where
  start : Nat
  stop : Nat
  deriving Repr, DecidableEq

/-- An exact decimal value `mantissa * 10 ^ exponent`, the model of the
`f64` values produced by `f64::from_str` on finite decimal input. -/
structure DecimalFloat where
  mantissa : Int
  exponent : Int
  deriving Repr, DecidableEq

/-- Result of running a fallible Rust function: a value, a typed error, or a
panic carrying the panic message. -/
inductive Outcome (ε α : Type) where
  | ok (a : α)
  | err (e : ε)
  | panic (msg : String)
  deriving Repr, DecidableEq

/-- `DummyType` from `lib.rs`: the length payload of a padding field,
either a byte count or a bit count. -/
inductive DummyType where
  | Bytes (n : Nat)
  | Bits (n : Nat)
  deriving Repr, DecidableEq

/-- `ParamFieldType` from `lib.rs`: the tagged union of field kinds.
`u8`/`u16`/`u32` carry an optional bit width, the fixed strings carry a
mandatory length, and `dummy8` carries an optional `DummyType`. -/
inductive ParamFieldType where
  | s8
  | u8 (bit_size : Option Nat)
  | s16
  | u16 (bit_size : Option Nat)
  | s32
  | u32 (bit_size : Option Nat)
  | b32
  | f32
  | a32
  | f64
  | fixstr (length : Nat)
  | fixstrW (length : Nat)
  | dummy8 (length : Option DummyType)
  deriving Repr, DecidableEq

/-- `ParamFieldDef` from `lib.rs`: type, verbatim name, optional default. -/
structure ParamFieldDef where
  field_type : ParamFieldType
  name : String
  default_value : Option DecimalFloat
  deriving Repr, DecidableEq

/-- `ParamFieldType::set_bit_size` from `lib.rs`. The source panics with
"Bit size not supported" on kinds without a bit size; that branch is the
`none` result here. -/
def ParamFieldType.set_bit_size : ParamFieldType → Nat → Option ParamFieldType
  | .u8 _, n => some (.u8 (some n))
  | .u16 _, n => some (.u16 (some n))
  | .u32 _, n => some (.u32 (some n))
  | _, _ => none

/-- `ParamFieldType::supports_bit_size` from `lib.rs`. -/
def ParamFieldType.supports_bit_size : ParamFieldType → Bool
  | .u8 _ => true
  | .u16 _ => true
  | .u32 _ => true
  | _ => false

/-! ### Character classes and Rust numeric parsing -/

/-- Insignificant whitespace inside a definition line. -/
def isWsChar (c : Char) : Bool := c == ' ' || c == '\t'

/-- ASCII decimal digit. -/
def isDigitChar (c : Char) : Bool := '0' ≤ c && c ≤ '9'

/-- A NAME character: anything except whitespace, ':', '[' and '='. -/
def isNameChar (c : Char) : Bool :=
  !(isWsChar c) && !(c == ':') && !(c == '[') && !(c == '=')

/-- Value of a run of decimal digits. -/
def digitsVal (cs : List Char) : Nat :=
  cs.foldl (fun a c => a * 10 + (c.toNat - 48)) 0

/-- `u8`/`u32`/`usize::from_str`: an optional leading '+', then a nonempty
digit run whose value must be below `bound`; anything else is a parse
error (`none`). -/
def rustParseNatLt (bound : Nat) (s : String) : Option Nat :=
  let cs : List Char :=
    match s.data with
    | '+' :: r => r
    | r => r
  if cs.isEmpty then none
  else if cs.all isDigitChar then
    let v := digitsVal cs
    if v < bound then some v else none
  else none

/-- `u8::from_str`. -/
def rustParseU8 (s : String) : Option Nat := rustParseNatLt 256 s

/-- `u32::from_str`. -/
def rustParseU32 (s : String) : Option Nat := rustParseNatLt (2 ^ 32) s

/-- `usize::from_str` at the 64-bit pointer width. -/
def rustParseUsize (s : String) : Option Nat := rustParseNatLt (2 ^ 64) s

/-- `bool::from_str`: exactly "true" or "false". -/
def rustParseBool (s : String) : Option Bool :=
  if s == "true" then some true else if s == "false" then some false else none

/-- Apply a sign to a natural number. -/
def intSign (neg : Bool) (n : Nat) : Int :=
  if neg then -(n : Int) else (n : Int)

/-- `f64::from_str` on finite decimal input: optional sign, integer digits,
optional '.' and fraction digits (at least one digit overall), optional
exponent part. Produces the exact decimal value. -/
def rustParseFloat (s : String) : Option DecimalFloat :=
  let sgn : Bool × List Char :=
    match s.data with
    | '-' :: r => (true, r)
    | '+' :: r => (false, r)
    | r => (false, r)
  let di := List.span isDigitChar sgn.2
  let fr : List Char × List Char :=
    match di.2 with
    | '.' :: rr => List.span isDigitChar rr
    | _ => ([], di.2)
  if di.1.isEmpty && fr.1.isEmpty then none
  else
    match fr.2 with
    | [] => some ⟨intSign sgn.1 (digitsVal (di.1 ++ fr.1)), -(fr.1.length : Int)⟩
    | e :: r3 =>
      if e == 'e' || e == 'E' then
        let esgn : Bool × List Char :=
          match r3 with
          | '-' :: rr => (true, rr)
          | '+' :: rr => (false, rr)
          | rr => (false, rr)
        let ed := List.span isDigitChar esgn.2
        if ed.1.isEmpty then none
        else if !ed.2.isEmpty then none
        else
          some ⟨intSign sgn.1 (digitsVal (di.1 ++ fr.1)),
            intSign esgn.1 (digitsVal ed.1) - (fr.1.length : Int)⟩
      else none

/-! ### Token trees (pest `Pair`s) -/

/-- The grammar rules of the field-definition micro-grammar (the `Rule`
enum pest derives from `fielddef.pest`). -/
inductive Rule where
  | def_rule
  | def_simple
  | def_dummy
  | def_fixstr
  | def_unrecog
  | simple_field_type
  | dummy_field_type
  | fixstr_type
  | field_name
  | suffix_array
  | suffix_bitsize
  | def_default_suffix
  | number
  | float_lit
  | unrecog_type
  deriving Repr, DecidableEq

/-- A pest `Pair`: a matched rule, the matched text, its span, and the
inner pairs. -/
inductive PestPair where
  | mk (rule : Rule) (str : String) (span : Span) (inner : List PestPair)

/-- The rule a pair matched (`Pair::as_rule`). -/
def PestPair.rule : PestPair → Rule
  | .mk r _ _ _ => r

/-- The text a pair matched (`Pair::as_str`). -/
def PestPair.str : PestPair → String
  | .mk _ s _ _ => s

/-- The span a pair matched (`Pair::as_span`). -/
def PestPair.span : PestPair → Span
  | .mk _ _ sp _ => sp

/-- The inner pairs of a pair (`Pair::into_inner`). -/
def PestPair.inner : PestPair → List PestPair
  | .mk _ _ _ i => i

/-- `DefParseError` from `field_def_parse.rs`: either the tokenizer's own
diagnostic or a `CustomError` message with a span. -/
inductive DefParseError where
  | tokenizer (pos : Nat)
  | custom (message : String) (span : Span)
  deriving Repr, DecidableEq

/-! ### Tokenizer

Modelled from the spec: the grammar file `deserialize/fielddef.pest` is not
among the sources, so the tokenizer below follows the specification's
grammar (section 6), with the top-level alternatives tried in the order of
the EBNF (`def_fixstr | def_dummy | def_simple | def_unrecog`) under PEG
first-match-wins semantics, and with `"fixstrW"` tried before `"fixstr"`
so that both literal tokens are reachable as the spec's examples require. -/

/-- Strip a literal off the front of the input, or fail. -/
def stripLit : List Char → List Char → Option (List Char)
  | [], cs => some cs
  | _ :: _, [] => none
  | l :: ls, c :: cs => if c == l then stripLit ls cs else none

/-- Try a list of literal tokens in order; return the first that matches
together with the remaining input. -/
def matchFirstLit : List String → List Char → Option (String × List Char)
  | [], _ => none
  | t :: ts, cs =>
    match stripLit t.data cs with
    | some rest => some (t, rest)
    | none => matchFirstLit ts cs

/-- The TYPE literals of `def_simple`, in the spec's order. -/
def typeTokens : List String :=
  ["s8", "u8", "s16", "u16", "s32", "u32", "f32", "f64", "a32", "angle32", "b32"]

/-- The fixed-string literals; the longer one first so both match. -/
def fixstrTokens : List String := ["fixstrW", "fixstr"]

/-- Consume one-or-more whitespace characters. -/
def takeWs1 (cs : List Char) : Option (Nat × List Char) :=
  let w := List.span isWsChar cs
  match w.1 with
  | [] => none
  | ws => some (ws.length, w.2)

/-- Consume a nonempty NAME. -/
def takeName (cs : List Char) : Option (String × List Char) :=
  let w := List.span isNameChar cs
  match w.1 with
  | [] => none
  | nm => some (String.mk nm, w.2)

/-- Optionally consume a bit-width suffix `":" UINT`, producing its
`suffix_bitsize` pair; consumes nothing when the group does not match. -/
def takeBitsizeOpt (cs : List Char) (pos : Nat) : Option PestPair × List Char × Nat :=
  match cs with
  | ':' :: r =>
    let d := List.span isDigitChar r
    match d.1 with
    | [] => (none, cs, pos)
    | ds =>
      let npair := PestPair.mk .number (String.mk ds) ⟨pos + 1, pos + 1 + ds.length⟩ []
      (some (PestPair.mk .suffix_bitsize (String.mk (':' :: ds))
          ⟨pos, pos + 1 + ds.length⟩ [npair]),
        d.2, pos + 1 + ds.length)
  | _ => (none, cs, pos)

/-- Optionally consume an array-length suffix `"[" UINT "]"`, producing its
`suffix_array` pair; consumes nothing when the group does not match. -/
def takeArrayOpt (cs : List Char) (pos : Nat) : Option PestPair × List Char × Nat :=
  match cs with
  | '[' :: r =>
    let d := List.span isDigitChar r
    match d.1 with
    | [] => (none, cs, pos)
    | ds =>
      match d.2 with
      | ']' :: r2 =>
        let npair := PestPair.mk .number (String.mk ds) ⟨pos + 1, pos + 1 + ds.length⟩ []
        (some (PestPair.mk .suffix_array (String.mk ('[' :: ds ++ [']']))
            ⟨pos, pos + 2 + ds.length⟩ [npair]),
          r2, pos + 2 + ds.length)
      | _ => (none, cs, pos)
  | _ => (none, cs, pos)

/-- Consume a FLOAT lexeme: optional sign, nonempty digits, optional
fraction; the fraction group is dropped without consuming when it does not
match (PEG optional semantics). -/
def takeFloatLex (cs : List Char) : Option (String × List Char) :=
  let sgn : List Char × List Char :=
    match cs with
    | '-' :: r => (['-'], r)
    | '+' :: r => (['+'], r)
    | _ => ([], cs)
  let d := List.span isDigitChar sgn.2
  match d.1 with
  | [] => none
  | ds =>
    match d.2 with
    | '.' :: r2 =>
      let f := List.span isDigitChar r2
      match f.1 with
      | [] => some (String.mk (sgn.1 ++ ds), d.2)
      | fs => some (String.mk (sgn.1 ++ ds ++ '.' :: fs), f.2)
    | _ => some (String.mk (sgn.1 ++ ds), d.2)

/-- Optionally consume a default suffix `WS? "=" WS? FLOAT`, producing its
`def_default_suffix` pair; consumes nothing when the group does not match. -/
def takeDefaultOpt (cs : List Char) (pos : Nat) : Option PestPair × List Char × Nat :=
  let w := List.span isWsChar cs
  let p1 := pos + w.1.length
  match w.2 with
  | '=' :: r2 =>
    let w2 := List.span isWsChar r2
    let p2 := p1 + 1 + w2.1.length
    match takeFloatLex w2.2 with
    | none => (none, cs, pos)
    | some (fl, r3) =>
      let fpair := PestPair.mk .float_lit fl ⟨p2, p2 + fl.length⟩ []
      (some (PestPair.mk .def_default_suffix (String.mk (cs.take (p2 + fl.length - pos)))
          ⟨p1, p2 + fl.length⟩ [fpair]),
        r3, p2 + fl.length)
  | _ => (none, cs, pos)

/-- Tokenize a `def_simple` line: `TYPE WS NAME (":" UINT)? (WS? "=" WS? FLOAT)?`. -/
def tokSimple (s : String) : Option PestPair :=
  let cs := s.data
  match matchFirstLit typeTokens cs with
  | none => none
  | some (t, r1) =>
  match takeWs1 r1 with
  | none => none
  | some (wn, r2) =>
  match takeName r2 with
  | none => none
  | some (nm, r3) =>
  let p1 := t.length
  let p2 := p1 + wn
  let p3 := p2 + nm.length
  let namePair := PestPair.mk .field_name nm ⟨p2, p3⟩ []
  let bo := takeBitsizeOpt r3 p3
  let dflt := takeDefaultOpt bo.2.1 bo.2.2
  if dflt.2.1.isEmpty then
    some (PestPair.mk .def_simple (String.mk (cs.take dflt.2.2)) ⟨0, dflt.2.2⟩
      ([PestPair.mk .simple_field_type t ⟨0, p1⟩ [], namePair]
        ++ bo.1.toList ++ dflt.1.toList))
  else none

/-- Tokenize a `def_dummy` line:
`"dummy8" WS NAME ("[" UINT "]" | ":" UINT)? (WS? "=" WS? FLOAT)?`. -/
def tokDummy (s : String) : Option PestPair :=
  let cs := s.data
  match stripLit "dummy8".data cs with
  | none => none
  | some r1 =>
  match takeWs1 r1 with
  | none => none
  | some (wn, r2) =>
  match takeName r2 with
  | none => none
  | some (nm, r3) =>
  let p2 := 6 + wn
  let p3 := p2 + nm.length
  let namePair := PestPair.mk .field_name nm ⟨p2, p3⟩ []
  let ao := takeArrayOpt r3 p3
  let lo :=
    match ao.1 with
    | some _ => ao
    | none => takeBitsizeOpt r3 p3
  let dflt := takeDefaultOpt lo.2.1 lo.2.2
  if dflt.2.1.isEmpty then
    some (PestPair.mk .def_dummy (String.mk (cs.take dflt.2.2)) ⟨0, dflt.2.2⟩
      ([PestPair.mk .dummy_field_type "dummy8" ⟨0, 6⟩ [], namePair]
        ++ lo.1.toList ++ dflt.1.toList))
  else none

/-- Tokenize a `def_fixstr` line: `("fixstrW" | "fixstr") WS NAME "[" UINT "]"`. -/
def tokFixstr (s : String) : Option PestPair :=
  let cs := s.data
  match matchFirstLit fixstrTokens cs with
  | none => none
  | some (t, r1) =>
  match takeWs1 r1 with
  | none => none
  | some (wn, r2) =>
  match takeName r2 with
  | none => none
  | some (nm, r3) =>
  let p1 := t.length
  let p2 := p1 + wn
  let p3 := p2 + nm.length
  let namePair := PestPair.mk .field_name nm ⟨p2, p3⟩ []
  let ao := takeArrayOpt r3 p3
  match ao.1 with
  | none => none
  | some apair =>
    if ao.2.1.isEmpty then
      some (PestPair.mk .def_fixstr (String.mk (cs.take ao.2.2)) ⟨0, ao.2.2⟩
        [PestPair.mk .fixstr_type t ⟨0, p1⟩ [], namePair, apair])
    else none

/-- Tokenize a `def_unrecog` line: capture the leading non-whitespace token. -/
def tokUnrecog (s : String) : Option PestPair :=
  let cs := s.data
  let w := List.span (fun c => !(isWsChar c)) cs
  match w.1 with
  | [] => none
  | tok =>
    some (PestPair.mk .def_unrecog s ⟨0, cs.length⟩
      [PestPair.mk .unrecog_type (String.mk tok) ⟨0, tok.length⟩ []])

/-- The tokenizer `tokenize` of `field_def_parse.rs`: run the `def` rule,
returning the top-level pairs or a structured diagnostic. -/
def tokenize (s : String) : Except DefParseError (List PestPair) :=
  match tokFixstr s <|> tokDummy s <|> tokSimple s <|> tokUnrecog s with
  | some p => .ok [PestPair.mk .def_rule s ⟨0, s.length⟩ [p]]
  | none => .error (.tokenizer 0)

/-! ### Field-definition interpreter (`parse_param_field_def`) -/

/-- `get_field_name` from `field_def_parse.rs`: take the next pair, panic
if absent or not a `field_name`, and return its text with the rest. -/
def getFieldName (ps : List PestPair) : Outcome DefParseError (String × List PestPair) :=
  match ps with
  | [] => .panic "getting field name"
  | p :: rest =>
    if p.rule == .field_name then .ok (p.str, rest)
    else .panic "assertion failed: Rule::field_name"

/-- `get_default` from `field_def_parse.rs`: assert the pair is a
`def_default_suffix`, take its inner value and parse it as `f64`,
panicking on failure. -/
def getDefault (p : PestPair) : Outcome DefParseError DecimalFloat :=
  if p.rule == .def_default_suffix then
    match p.inner with
    | [] => .panic "default inner"
    | di :: _ =>
      match rustParseFloat di.str with
      | some v => .ok v
      | none => .panic "default str to f64"
  else .panic "Rule is not default"

/-- `get_array_size` from `field_def_parse.rs`: assert `suffix_array`, take
the inner number and parse it as `usize` via `parse_pair`, panicking with
"parse invalid" on failure. -/
def getArraySize (p : PestPair) : Outcome DefParseError Nat :=
  if p.rule == .suffix_array then
    match p.inner with
    | [] => .panic "getting number"
    | num :: _ =>
      match rustParseUsize num.str with
      | some n => .ok n
      | none => .panic "parse invalid"
  else .panic "Rule is not suffix_array"

/-- `get_bitsize` from `field_def_parse.rs`: assert `suffix_bitsize`, take
the inner number and parse it as `u8` via `parse_pair`, panicking with
"parse invalid" on failure. -/
def getBitsize (p : PestPair) : Outcome DefParseError Nat :=
  if p.rule == .suffix_bitsize then
    match p.inner with
    | [] => .panic "getting number"
    | num :: _ =>
      match rustParseU8 num.str with
      | some n => .ok n
      | none => .panic "parse invalid"
  else .panic "Rule is not suffix_bitsize"

/-- The literal-to-kind table of the `def_simple` branch. -/
def lookupSimpleType : String → Option ParamFieldType
  | "s8" => some .s8
  | "u8" => some (.u8 none)
  | "s16" => some .s16
  | "u16" => some (.u16 none)
  | "s32" => some .s32
  | "u32" => some (.u32 none)
  | "f32" => some .f32
  | "f64" => some .f64
  | "a32" => some .a32
  | "angle32" => some .a32
  | "b32" => some .b32
  | _ => none

/-- The suffix loop of the `def_simple` branch: bit-width suffixes parse the
numeral as `u8` (panicking on overflow), then check `supports_bit_size`
before `set_bit_size`, returning a typed custom error carrying the suffix's
span when the kind has no bit-width; default suffixes attach the value. -/
def simpleLoop (fd : ParamFieldDef) : List PestPair → Outcome DefParseError ParamFieldDef
  | [] => .ok fd
  | sfx :: rest =>
    match sfx.rule with
    | .suffix_bitsize =>
      match sfx.inner with
      | [] => .panic "number"
      | number :: _ =>
        match rustParseU8 number.str with
        | none => .panic "number_str to u8"
        | some bit_size =>
          if fd.field_type.supports_bit_size then
            match fd.field_type.set_bit_size bit_size with
            | some ft => simpleLoop ⟨ft, fd.name, fd.default_value⟩ rest
            | none => .panic "Bit size not supported"
          else
            .err (.custom "Bit size not supported on this type" sfx.span)
    | .def_default_suffix =>
      match getDefault sfx with
      | .ok v => simpleLoop ⟨fd.field_type, fd.name, some v⟩ rest
      | .err e => .err e
      | .panic m => .panic m
    | _ => .panic "unreachable"

/-- The `def_simple` branch of `parse_param_field_def`. -/
def interpSimple (inner : List PestPair) : Outcome DefParseError ParamFieldDef :=
  match inner with
  | [] => .panic "getting simple field type"
  | sft :: rest =>
    match lookupSimpleType sft.str with
    | none => .panic "unreachable"
    | some field_type =>
      match getFieldName rest with
      | .ok (field_name, suffixes) =>
        simpleLoop ⟨field_type, field_name, none⟩ suffixes
      | .err e => .err e
      | .panic m => .panic m

/-- The suffix loop of the `def_dummy` branch: an array suffix replaces the
length with `DummyType.Bytes`, a bit-size suffix with `DummyType.Bits`, and
a default suffix replaces the default value. -/
def dummyLoop (field_name : String) (dummy_length : Option DummyType)
    (dflt : Option DecimalFloat) : List PestPair → Outcome DefParseError ParamFieldDef
  | [] => .ok ⟨.dummy8 dummy_length, field_name, dflt⟩
  | sfx :: rest =>
    match sfx.rule with
    | .suffix_array =>
      match getArraySize sfx with
      | .ok n => dummyLoop field_name (some (.Bytes n)) dflt rest
      | .err e => .err e
      | .panic m => .panic m
    | .suffix_bitsize =>
      match getBitsize sfx with
      | .ok n => dummyLoop field_name (some (.Bits n)) dflt rest
      | .err e => .err e
      | .panic m => .panic m
    | .def_default_suffix =>
      match getDefault sfx with
      | .ok v => dummyLoop field_name dummy_length (some v) rest
      | .err e => .err e
      | .panic m => .panic m
    | _ => .panic "unreachable"

/-- The `def_dummy` branch of `parse_param_field_def`. -/
def interpDummy (inner : List PestPair) : Outcome DefParseError ParamFieldDef :=
  match inner with
  | [] => .panic "after dummy"
  | first :: rest =>
    if first.rule == .dummy_field_type then
      match getFieldName rest with
      | .ok (field_name, suffixes) => dummyLoop field_name none none suffixes
      | .err e => .err e
      | .panic m => .panic m
    else .panic "assertion failed: Rule::dummy_field_type"

/-- The literal-to-kind dispatch of the `def_fixstr` branch (the `match` on
`fixstr_type.as_str()`; the unreachable arm is `none`). -/
def fixstrKind (s : String) (array_len : Nat) : Option ParamFieldType :=
  match s with
  | "fixstr" => some (.fixstr array_len)
  | "fixstrW" => some (.fixstrW array_len)
  | _ => none

/-- Assemble the `def_fixstr` result from the matched literal, the name and
the array length; the definition never carries a default value. -/
def fixstrResult (s : String) (nm : String) (array_len : Nat) :
    Outcome DefParseError ParamFieldDef :=
  match fixstrKind s array_len with
  | some field_type => .ok ⟨field_type, nm, none⟩
  | none => .panic "unreachable"

/-- The `def_fixstr` branch of `parse_param_field_def`: fixed strings take
the literal kind, the verbatim name and the mandatory array length, and
never carry a default value. -/
def interpFixstr (inner : List PestPair) : Outcome DefParseError ParamFieldDef :=
  match inner with
  | [] => .panic "fixstr_type"
  | ft :: rest =>
    match rest with
    | [] => .panic "field_name"
    | nm :: rest2 =>
      match rest2 with
      | [] => .panic "suffix_array"
      | sa :: _ =>
        match getArraySize sa with
        | .ok array_len => fixstrResult ft.str nm.str array_len
        | .err e => .err e
        | .panic m => .panic m

/-- The dispatch of `parse_param_field_def` over an already-tokenized pair
list: take the first pair, assert it is a `def`, and interpret its single
inner pair according to which top-level shape matched. -/
def interpDef (pairs : List PestPair) : Outcome DefParseError ParamFieldDef :=
  match pairs with
  | [] => .panic "First pair"
  | tokenized :: _ =>
    if tokenized.rule == .def_rule then
      match tokenized.inner with
      | [] => .panic "def type pair"
      | inner :: _ =>
        match inner.rule with
        | .def_simple => interpSimple inner.inner
        | .def_dummy => interpDummy inner.inner
        | .def_fixstr => interpFixstr inner.inner
        | .def_unrecog =>
          match inner.inner with
          | [] => .panic "field type"
          | tok :: _ => .err (.custom "Unrecognized type" tok.span)
        | _ => .panic "unreachable"
    else .panic "Rule is not def"

/-- `parse_param_field_def` from `field_def_parse.rs`: tokenize the line,
then interpret the token tree. -/
def parse_param_field_def (input_str : String) : Outcome DefParseError ParamFieldDef :=
  match tokenize input_str with
  | .error e => .err e
  | .ok pairs => interpDef pairs

/-! ### XML data model

`deserialize_def` first runs `roxmltree::Document::parse` (an external
crate) and then works on the resulting node tree; the embedding starts from
the parsed tree. A node is an element (tag, attributes, children) or a text
node; `roxmltree`'s accessors are modelled on it: a non-element node has the
empty tag name and no attributes, and `Node::text` of an element is the
content of its first child when that child is a text node. -/

inductive Xml where
  | elem (tag : String) (attrs : List (String × String)) (children : List Xml)
  | text (content : String)

/-- `Node::tag_name().name()`. -/
def Xml.tagName : Xml → String
  | .elem t _ _ => t
  | .text _ => ""

/-- `Node::children`. -/
def Xml.children : Xml → List Xml
  | .elem _ _ cs => cs
  | .text _ => []

/-- `Node::attribute`. -/
def Xml.attribute : Xml → String → Option String
  | .elem _ attrs _, k => (attrs.find? (fun a => a.1 == k)).map (fun a => a.2)
  | .text _, _ => none

/-- `Node::text`. -/
def Xml.textContent : Xml → Option String
  | .elem _ _ (.text s :: _) => some s
  | .elem _ _ _ => none
  | .text s => some s

/-- `HashMap::insert` on a string map modelled as an association list:
the new binding replaces any previous one for the key. -/
def insertKV (m : List (String × String)) (k v : String) : List (String × String) :=
  (k, v) :: m.filter (fun a => !(a.1 == k))

/-- `HashMap::get`. -/
def lookupKV (m : List (String × String)) (k : String) : Option String :=
  (m.find? (fun a => a.1 == k)).map (fun a => a.2)

/-! ### Definition assembler (`deserialize/mod.rs`) -/

/-- `ParamdefDeserializeError` from `deserialize/mod.rs` (the `XmlParsing`
variant wraps the external XML reader's error and is unused here because
the embedding starts from a parsed tree). -/
inductive ParamdefDeserializeError where
  | XmlParsing
  | XmlBlankElement (name : String)
  | XmlParsingNumber
  | XmlParsingBool
  | XmlParsingFloat
  | MissingParamData (what : String)
  | ParsingDefString (e : DefParseError)
  deriving Repr, DecidableEq

/-- `ParamdefFormat` from `lib.rs`. -/
inductive ParamdefFormat where
  | UTF16
  | ShiftJIS
  deriving Repr, DecidableEq

/-- `ParamdefEndian` from `lib.rs`. -/
inductive ParamdefEndian where
  | Little
  | Big
  deriving Repr, DecidableEq

/-- `EditFlags` from `lib.rs`. -/
structure EditFlags where
  wrap : Bool
  lock : Bool
  deriving Repr, DecidableEq

/-- `ParamField` from `lib.rs`: a parsed field definition plus its
independently optional editor metadata. -/
structure ParamField where
  field_def : ParamFieldDef
  display_name : Option String
  enum_tdf : Option String
  description : Option String
  printf_format : Option String
  edit_flags : Option EditFlags
  minimum : Option DecimalFloat
  maximum : Option DecimalFloat
  increment : Option DecimalFloat
  sort_id : Option Nat
  deriving Repr, DecidableEq

/-- `ParamDef` from `lib.rs`. -/
structure ParamDef where
  param_type : String
  data_version : Nat
  endian : ParamdefEndian
  string_format : ParamdefFormat
  format_version : Nat
  fields : List ParamField
  deriving Repr, DecidableEq

/-- Substring check used by `str::contains` with a string pattern: does
`pat` occur contiguously inside `hay`? -/
def isPrefixAt : List Char → List Char → Bool
  | [], _ => true
  | _ :: _, [] => false
  | p :: ps, h :: hs => p == h && isPrefixAt ps hs

/-- Rust `str::contains(pat)`: `pat` occurs at some position of `hay`. -/
def containsSub (pat : List Char) : List Char → Bool
  | [] => pat.isEmpty
  | h :: hs => isPrefixAt pat (h :: hs) || containsSub pat hs

/-- `EditFlags::from_str` from `deserialize/mod.rs`: always succeeds, wrap
and lock are substring tests for "Wrap" and "Lock". -/
def EditFlags.from_str (text : String) : Except ParamdefDeserializeError EditFlags :=
  .ok ⟨containsSub "Wrap".data text.data, containsSub "Lock".data text.data⟩

/-- `From<bool> for ParamdefEndian` from `deserialize/mod.rs`. -/
def ParamdefEndian.ofBool (a : Bool) : ParamdefEndian :=
  if a then .Big else .Little

/-- `From<bool> for ParamdefFormat` from `deserialize/mod.rs`. -/
def ParamdefFormat.ofBool (a : Bool) : ParamdefFormat :=
  if a then .UTF16 else .ShiftJIS

/-- `ParamdefEndian::from_str`: parse a bool, then convert. -/
def ParamdefEndian.from_str (s : String) : Option ParamdefEndian :=
  (rustParseBool s).map ParamdefEndian.ofBool

/-- `ParamdefFormat::from_str`: parse a bool, then convert. -/
def ParamdefFormat.from_str (s : String) : Option ParamdefFormat :=
  (rustParseBool s).map ParamdefFormat.ofBool

/-- The root-children loop of `deserialize_def` (lines 36-45): the last
"Fields" child is remembered, every other child inserts its tag and text
into the configuration map, and a child whose `text()` is `None` aborts
with `XmlBlankElement` naming it. -/
def buildRootConfig : List Xml → List (String × String) → Option Xml →
    Except ParamdefDeserializeError (List (String × String) × Option Xml)
  | [], cfg, f => .ok (cfg, f)
  | c :: rest, cfg, f =>
    if c.tagName == "Fields" then buildRootConfig rest cfg (some c)
    else
      match c.textContent with
      | none => .error (.XmlBlankElement c.tagName)
      | some t => buildRootConfig rest (insertKV cfg c.tagName t) f

/-- `get_or_error` from `deserialize/mod.rs`. -/
def get_or_error (map : List (String × String)) (key : String) :
    Except ParamdefDeserializeError String :=
  match lookupKV map key with
  | some v => .ok v
  | none => .error (.MissingParamData key)

/-- Turn an optional parse into the `Except` used by `?`-conversion. -/
def parsedOr {α : Type} (o : Option α) (e : ParamdefDeserializeError) :
    Except ParamdefDeserializeError α :=
  match o with
  | some v => .ok v
  | none => .error e

/-- The five required root reads of `deserialize_def` (lines 49-56), in
source order; both the endianness and the string format are read from the
"BigEndian" key. -/
def headerOf (root_config : List (String × String)) :
    Except ParamdefDeserializeError
      (String × Nat × ParamdefEndian × ParamdefFormat × Nat) := do
  let param_type ← get_or_error root_config "ParamType"
  let dvs ← get_or_error root_config "DataVersion"
  let data_version ← parsedOr (rustParseU32 dvs) .XmlParsingNumber
  let bes ← get_or_error root_config "BigEndian"
  let endian ← parsedOr (ParamdefEndian.from_str bes) .XmlParsingBool
  let sfs ← get_or_error root_config "BigEndian"
  let string_format ← parsedOr (ParamdefFormat.from_str sfs) .XmlParsingBool
  let fvs ← get_or_error root_config "FormatVersion"
  let format_version ← parsedOr (rustParseU32 fvs) .XmlParsingNumber
  .ok (param_type, data_version, endian, string_format, format_version)

/-- The field-children loop of `parse_field_node` (lines 76-80): children
whose `text()` is `None` are skipped, the others insert tag and text. -/
def buildFieldConfig : List Xml → List (String × String) → List (String × String)
  | [], cfg => cfg
  | c :: rest, cfg =>
    match c.textContent with
    | some t => buildFieldConfig rest (insertKV cfg c.tagName t)
    | none => buildFieldConfig rest cfg

/-- The `field_config.get("EditFlags").map(...).swap()?` step: absent keys
stay unset, present keys are parsed (always successfully). -/
def optEditFlagsMeta (o : Option String) :
    Except ParamdefDeserializeError (Option EditFlags) :=
  match o with
  | none => .ok none
  | some a => (EditFlags.from_str a).map some

/-- The `field_config.get(key).map(f64::from_str).swap()?` step: absent
keys stay unset, present keys must parse as floats. -/
def optFloatMeta (o : Option String) :
    Except ParamdefDeserializeError (Option DecimalFloat) :=
  match o with
  | none => .ok none
  | some a => (parsedOr (rustParseFloat a) .XmlParsingFloat).map some

/-- The `field_config.get("SortID").map(usize::from_str).swap()?` step. -/
def optUsizeMeta (o : Option String) :
    Except ParamdefDeserializeError (Option Nat) :=
  match o with
  | none => .ok none
  | some a => (parsedOr (rustParseUsize a) .XmlParsingNumber).map some

/-- The `ParamField` struct literal of `parse_field_node` (lines 83-98)
after the `Def` attribute has parsed: the nine optional metadata keys are
read independently, each `?` aborting on a present-but-malformed value, in
the source's field order. -/
def assembleFieldMeta (field_def : ParamFieldDef)
    (field_config : List (String × String)) :
    Except ParamdefDeserializeError ParamField := do
  let edit_flags ← optEditFlagsMeta (lookupKV field_config "EditFlags")
  let minimum ← optFloatMeta (lookupKV field_config "Minimum")
  let maximum ← optFloatMeta (lookupKV field_config "Maximum")
  let increment ← optFloatMeta (lookupKV field_config "Increment")
  let sort_id ← optUsizeMeta (lookupKV field_config "SortID")
  .ok
    { field_def := field_def
      display_name := lookupKV field_config "DisplayName"
      enum_tdf := lookupKV field_config "Enum"
      description := lookupKV field_config "Description"
      printf_format := lookupKV field_config "DisplayFormat"
      edit_flags := edit_flags
      minimum := minimum
      maximum := maximum
      increment := increment
      sort_id := sort_id }

/-- `parse_field_node` from `deserialize/mod.rs`: require the `Def`
attribute, collect the child map, parse the definition line, then assemble
the field record with its optional metadata. -/
def parse_field_node (field_node : Xml) : Outcome ParamdefDeserializeError ParamField :=
  match field_node.attribute "Def" with
  | none => .err (.MissingParamData "Field Def")
  | some attr =>
    let field_config := buildFieldConfig field_node.children []
    match parse_param_field_def attr with
    | .panic m => .panic m
    | .err e => .err (.ParsingDefString e)
    | .ok field_def =>
      match assembleFieldMeta field_def field_config with
      | .ok f => .ok f
      | .error e => .err e

/-- The fields loop of `deserialize_def` (lines 60-62): parse every child
of the "Fields" node in document order, aborting on the first error. -/
def parseFields : List Xml → Outcome ParamdefDeserializeError (List ParamField)
  | [] => .ok []
  | n :: rest =>
    match parse_field_node n with
    | .ok f =>
      match parseFields rest with
      | .ok fs => .ok (f :: fs)
      | .err e => .err e
      | .panic m => .panic m
    | .err e => .err e
    | .panic m => .panic m

/-- `deserialize_def` from `deserialize/mod.rs`, starting from the parsed
root element: check the root tag, split the children into the "Fields"
container and the configuration map, read the five required root values,
then parse every field child in order. -/
def deserialize_def (root : Xml) : Outcome ParamdefDeserializeError ParamDef :=
  if root.tagName == "PARAMDEF" then
    match buildRootConfig root.children [] none with
    | .error e => .err e
    | .ok (root_config, fieldsOpt) =>
      match fieldsOpt with
      | none => .err (.MissingParamData "Fields")
      | some fields_node =>
        match headerOf root_config with
        | .error e => .err e
        | .ok hdr =>
          match parseFields fields_node.children with
          | .ok fs => .ok ⟨hdr.1, hdr.2.1, hdr.2.2.1, hdr.2.2.2.1, hdr.2.2.2.2, fs⟩
          | .err e => .err e
          | .panic m => .panic m
  else .err (.MissingParamData "Invalid root element")

/-! ### Predicates and concrete documents used by the claims -/

/-- Does an outcome consist of the panic raised by `set_bit_size`? -/
def isBitSizePanic {ε α : Type} : Outcome ε α → Bool
  | .panic m => m == "Bit size not supported"
  | _ => false

/-- Drop the children whose `text()` is `None` from an element. -/
def removeBlankChildren : Xml → Xml
  | .elem t a cs => .elem t a (cs.filter (fun c => (Xml.textContent c).isSome))
  | .text s => .text s

/-- All typed metadata values present on a field node parse: the three
float keys parse as `f64` and the sort key parses as `usize`. -/
def fieldMetaOk (n : Xml) : Prop :=
  (∀ v, lookupKV (buildFieldConfig n.children []) "Minimum" = some v →
    (rustParseFloat v).isSome = true)
  ∧ (∀ v, lookupKV (buildFieldConfig n.children []) "Maximum" = some v →
    (rustParseFloat v).isSome = true)
  ∧ (∀ v, lookupKV (buildFieldConfig n.children []) "Increment" = some v →
    (rustParseFloat v).isSome = true)
  ∧ (∀ v, lookupKV (buildFieldConfig n.children []) "SortID" = some v →
    (rustParseUsize v).isSome = true)

/-- Claim C4 as stated: whenever the root metadata is valid (correct root
tag, configuration extraction succeeds, required keys parse) and every
child of the "Fields" container is a `Field` element carrying a parseable
`Def` attribute, `deserialize_def` succeeds with exactly one pair per
child, in document order. -/
def claimC4At (root : Xml) : Prop :=
  ∀ cfg fields_node,
    root.tagName = "PARAMDEF" →
    buildRootConfig root.children [] none = .ok (cfg, some fields_node) →
    (∃ hdr, headerOf cfg = .ok hdr) →
    (∀ c ∈ fields_node.children, c.tagName = "Field" ∧
       ∃ a fd, c.attribute "Def" = some a ∧ parse_param_field_def a = .ok fd) →
    ∃ d, deserialize_def root = .ok d
      ∧ List.Forall₂ (fun n f => parse_field_node n = .ok f) fields_node.children d.fields

/-- A document whose root metadata is valid and whose single field child is
a `Field` element with a parseable `Def`, but whose `Minimum` metadata text
does not parse as a float. -/
def c4doc : Xml :=
  .elem "PARAMDEF" []
    [ .elem "ParamType" [] [.text "C4_PARAM"],
      .elem "DataVersion" [] [.text "1"],
      .elem "BigEndian" [] [.text "false"],
      .elem "FormatVersion" [] [.text "104"],
      .elem "Fields" []
        [ .elem "Field" [("Def", "u8 test")] [.elem "Minimum" [] [.text "abc"]] ] ]

/-- The "Fields" node of `c4doc`. -/
def c4fields : Xml :=
  .elem "Fields" []
    [ .elem "Field" [("Def", "u8 test")] [.elem "Minimum" [] [.text "abc"]] ]

/-- The root configuration `deserialize_def` builds for `c4doc`. -/
def c4cfg : List (String × String) :=
  [("FormatVersion", "104"), ("BigEndian", "false"), ("DataVersion", "1"),
    ("ParamType", "C4_PARAM")]

/-- A well-formed document with one field carrying parseable metadata. -/
def c4docOk : Xml :=
  .elem "PARAMDEF" []
    [ .elem "ParamType" [] [.text "C4_PARAM"],
      .elem "DataVersion" [] [.text "1"],
      .elem "BigEndian" [] [.text "false"],
      .elem "FormatVersion" [] [.text "104"],
      .elem "Fields" []
        [ .elem "Field" [("Def", "u8 test")]
            [.elem "Minimum" [] [.text "-1.5"], .elem "SortID" [] [.text "3"]] ] ]

/-- A minimal big-endian document used to witness C2. -/
def c2doc : Xml :=
  .elem "PARAMDEF" []
    [ .elem "ParamType" [] [.text "C2_PARAM"],
      .elem "DataVersion" [] [.text "7"],
      .elem "BigEndian" [] [.text "true"],
      .elem "FormatVersion" [] [.text "201"],
      .elem "Fields" [] [] ]

/-- A little-endian one-field document used to witness C5. -/
def c5doc : Xml :=
  .elem "PARAMDEF" []
    [ .elem "ParamType" [] [.text "C5_PARAM"],
      .elem "DataVersion" [] [.text "2"],
      .elem "BigEndian" [] [.text "false"],
      .elem "FormatVersion" [] [.text "104"],
      .elem "Fields" [] [ .elem "Field" [("Def", "u8 x")] [] ] ]

/-- The "Fields" node of `c4docOk`. -/
def c4okfields : Xml :=
  .elem "Fields" []
    [ .elem "Field" [("Def", "u8 test")]
        [.elem "Minimum" [] [.text "-1.5"], .elem "SortID" [] [.text "3"]] ]

/-- The result of deserializing `c2doc`. -/
def c2def : ParamDef := ⟨"C2_PARAM", 7, .Big, .UTF16, 201, []⟩

/-- The result of deserializing `c5doc`. -/
def c5def : ParamDef :=
  ⟨"C5_PARAM", 2, .Little, .ShiftJIS, 104,
    [⟨⟨.u8 none, "x", none⟩, none, none, none, none, none, none, none, none, none⟩]⟩

/-- A document whose root has an element child with no text content. -/
def c8doc : Xml :=
  .elem "PARAMDEF" []
    [ .elem "ParamType" [] [.text "C8_PARAM"],
      .elem "Blank" [] [],
      .elem "Fields" [] [] ]

/-! ## Helper lemmas -/

theorem isPrefixAt_iff (pat hay : List Char) : isPrefixAt pat hay = true ↔ pat <+: hay := by
  induction pat generalizing hay with
  | nil => simp [isPrefixAt, List.nil_prefix]
  | cons p ps ih =>
    cases hay with
    | nil => simp [isPrefixAt]
    | cons h hs =>
      simp [isPrefixAt, List.cons_prefix_cons, ih, And.comm]

theorem containsSub_iff (pat hay : List Char) : containsSub pat hay = true ↔ pat <:+: hay := by
  induction hay with
  | nil => simp [containsSub, List.isEmpty_iff]
  | cons h hs ih =>
    simp [containsSub, ih, isPrefixAt_iff, List.infix_cons_iff]

theorem getFieldName_nbp (ps : List PestPair) : isBitSizePanic (getFieldName ps) = false := by
  unfold getFieldName
  split
  · rfl
  · split <;> rfl

theorem getDefault_nbp (p : PestPair) : isBitSizePanic (getDefault p) = false := by
  unfold getDefault
  split
  · split
    · rfl
    · split <;> rfl
  · rfl

theorem getArraySize_nbp (p : PestPair) : isBitSizePanic (getArraySize p) = false := by
  unfold getArraySize
  split
  · split
    · rfl
    · split <;> rfl
  · rfl

theorem getBitsize_nbp (p : PestPair) : isBitSizePanic (getBitsize p) = false := by
  unfold getBitsize
  split
  · split
    · rfl
    · split <;> rfl
  · rfl

theorem fixstrResult_nbp (s nm : String) (k : Nat) :
    isBitSizePanic (fixstrResult s nm k) = false := by
  unfold fixstrResult
  cases fixstrKind s k <;> rfl

theorem simpleLoop_nbp : ∀ (l : List PestPair) (fd : ParamFieldDef),
    isBitSizePanic (simpleLoop fd l) = false := by
  intro l
  induction l with
  | nil => intro fd; rfl
  | cons sfx rest ih =>
    intro fd
    cases sfx with
    | mk r s sp inner =>
      cases r <;> try rfl
      case suffix_bitsize =>
        cases inner with
        | nil => rfl
        | cons number tl =>
          simp only [simpleLoop, PestPair.rule, PestPair.inner, PestPair.span]
          cases h : rustParseU8 number.str with
          | none => rfl
          | some bs =>
            cases hft : fd.field_type <;> first | rfl | exact ih _
      case def_default_suffix =>
        simp only [simpleLoop, PestPair.rule]
        split
        · exact ih _
        · rfl
        next m hpanic =>
          have h2 := getDefault_nbp (.mk .def_default_suffix s sp inner)
          rw [hpanic] at h2
          exact h2

theorem dummyLoop_nbp : ∀ (l : List PestPair) (nm : String) (dl : Option DummyType)
    (df : Option DecimalFloat), isBitSizePanic (dummyLoop nm dl df l) = false := by
  intro l
  induction l with
  | nil => intro nm dl df; rfl
  | cons sfx rest ih =>
    intro nm dl df
    cases sfx with
    | mk r s sp inner =>
      cases r <;> try rfl
      case suffix_array =>
        simp only [dummyLoop, PestPair.rule]
        split
        · exact ih _ _ _
        · rfl
        next m hpanic =>
          have h2 := getArraySize_nbp (.mk .suffix_array s sp inner)
          rw [hpanic] at h2
          exact h2
      case suffix_bitsize =>
        simp only [dummyLoop, PestPair.rule]
        split
        · exact ih _ _ _
        · rfl
        next m hpanic =>
          have h2 := getBitsize_nbp (.mk .suffix_bitsize s sp inner)
          rw [hpanic] at h2
          exact h2
      case def_default_suffix =>
        simp only [dummyLoop, PestPair.rule]
        split
        · exact ih _ _ _
        · rfl
        next m hpanic =>
          have h2 := getDefault_nbp (.mk .def_default_suffix s sp inner)
          rw [hpanic] at h2
          exact h2

theorem interpSimple_nbp (inner : List PestPair) :
    isBitSizePanic (interpSimple inner) = false := by
  cases inner with
  | nil => rfl
  | cons sft rest =>
    simp only [interpSimple]
    split
    · rfl
    · split
      · exact simpleLoop_nbp _ _
      · rfl
      next m hpanic =>
        have h2 := getFieldName_nbp rest
        rw [hpanic] at h2
        exact h2

theorem interpDummy_nbp (inner : List PestPair) :
    isBitSizePanic (interpDummy inner) = false := by
  cases inner with
  | nil => rfl
  | cons first rest =>
    simp only [interpDummy]
    split
    · split
      · exact dummyLoop_nbp _ _ _ _
      · rfl
      next m hpanic =>
        have h2 := getFieldName_nbp rest
        rw [hpanic] at h2
        exact h2
    · rfl

theorem interpFixstr_nbp (inner : List PestPair) :
    isBitSizePanic (interpFixstr inner) = false := by
  cases inner with
  | nil => rfl
  | cons ft rest =>
    cases rest with
    | nil => rfl
    | cons nm rest2 =>
      cases rest2 with
      | nil => rfl
      | cons sa tl =>
        simp only [interpFixstr]
        split
        · exact fixstrResult_nbp _ _ _
        · rfl
        next m hpanic =>
          have h2 := getArraySize_nbp sa
          rw [hpanic] at h2
          exact h2

theorem interpDef_nbp (pairs : List PestPair) :
    isBitSizePanic (interpDef pairs) = false := by
  cases pairs with
  | nil => rfl
  | cons tokenized tl =>
    simp only [interpDef]
    split
    · cases tokenized.inner with
      | nil => rfl
      | cons inner tl2 =>
        cases inner with
        | mk r s sp i =>
          cases r <;> try rfl
          · exact interpSimple_nbp _
          · exact interpDummy_nbp _
          · exact interpFixstr_nbp _
          · cases i <;> rfl
    · rfl

theorem getFieldName_cons_ok (nm : PestPair) (rest : List PestPair)
    (h : nm.rule = .field_name) : getFieldName (nm :: rest) = .ok (nm.str, rest) := by
  unfold getFieldName
  simp [h]

theorem simpleLoop_bitsize_unsupported (fd : ParamFieldDef) (sfx num : PestPair)
    (numrest : List PestPair) (b : Nat) (rest : List PestPair)
    (h1 : sfx.rule = .suffix_bitsize)
    (h2 : sfx.inner = num :: numrest)
    (h3 : rustParseU8 num.str = some b)
    (h4 : fd.field_type.supports_bit_size = false) :
    simpleLoop fd (sfx :: rest)
      = .err (.custom "Bit size not supported on this type" sfx.span) := by
  simp only [simpleLoop, h1, h2, h3, h4]
  simp

theorem getArraySize_cons_ok (sfx num : PestPair) (numrest : List PestPair) (k : Nat)
    (h1 : sfx.rule = .suffix_array) (h2 : sfx.inner = num :: numrest)
    (h3 : rustParseUsize num.str = some k) : getArraySize sfx = .ok k := by
  unfold getArraySize
  simp [h1, h2, h3]

theorem getBitsize_cons_ok (sfx num : PestPair) (numrest : List PestPair) (k : Nat)
    (h1 : sfx.rule = .suffix_bitsize) (h2 : sfx.inner = num :: numrest)
    (h3 : rustParseU8 num.str = some k) : getBitsize sfx = .ok k := by
  unfold getBitsize
  simp [h1, h2, h3]

theorem interpDummy_shape (d nm : PestPair) (suffixes : List PestPair)
    (h1 : d.rule = .dummy_field_type) (h2 : nm.rule = .field_name) :
    interpDummy (d :: nm :: suffixes) = dummyLoop nm.str none none suffixes := by
  simp only [interpDummy, h1, beq_self_eq_true, if_true,
    getFieldName_cons_ok nm suffixes h2]

/-! ## Claims -/

/-- C1: the spec requires suffix numerals that do not fit their target
width (8 bits for bit-width suffixes, pointer width for array lengths) to
surface as a typed parse error without aborting; the code instead panics
through `expect` in both places, which this theorem records by evaluating
the parser at the two failing inputs. -/
theorem C1_suffix_overflow_panics :
    parse_param_field_def "u32 testingVar:300" = .panic "number_str to u8"
  ∧ parse_param_field_def "fixstr texName_00[99999999999999999999]"
      = .panic "parse invalid" :=
  ⟨rfl, rfl⟩

/-- C3: "u32 testingVar:3" parses to unsigned-32 with bit width 3 and no
default; "s32 testingVar:3" fails with the bit-size-unsupported error
carrying the suffix's span; `supports_bit_size` holds exactly for the
u8/u16/u32 kinds; and on any simple-type token tree whose kind does not
support bit widths, an in-range bit-width suffix makes the interpreter
return the typed error carrying the suffix's span instead of a value. -/
theorem C3_bit_size_support :
    ( parse_param_field_def "u32 testingVar:3"
        = .ok ⟨.u32 (some 3), "testingVar", none⟩)
  ∧ ( parse_param_field_def "s32 testingVar:3"
        = .err (.custom "Bit size not supported on this type" ⟨14, 16⟩))
  ∧ (∀ ft : ParamFieldType, ft.supports_bit_size = true ↔
        (∃ o, ft = .u8 o ∨ ft = .u16 o ∨ ft = .u32 o))
  ∧ (∀ (tokstr : String) (ft : ParamFieldType) (sft nm sfx num : PestPair)
        (b : Nat) (numrest suffixrest : List PestPair),
        lookupSimpleType tokstr = some ft →
        ft.supports_bit_size = false →
        sft.str = tokstr →
        nm.rule = .field_name →
        sfx.rule = .suffix_bitsize →
        sfx.inner = num :: numrest →
        rustParseU8 num.str = some b →
        interpSimple (sft :: nm :: sfx :: suffixrest)
          = .err (.custom "Bit size not supported on this type" sfx.span)) := by
  refine ⟨rfl, rfl, ?_, ?_⟩
  · intro ft
    constructor
    · intro h
      cases ft <;> first
        | exact ⟨_, Or.inl rfl⟩
        | exact ⟨_, Or.inr (Or.inl rfl)⟩
        | exact ⟨_, Or.inr (Or.inr rfl)⟩
        | exact absurd h (by simp [ParamFieldType.supports_bit_size])
    · rintro ⟨o, h | h | h⟩ <;> subst h <;> rfl
  · intro tokstr ft sft nm sfx num b numrest suffixrest h1 h2 h3 h4 h5 h6 h7
    simp only [interpSimple, h3, h1, getFieldName_cons_ok nm (sfx :: suffixrest) h4]
    exact simpleLoop_bitsize_unsupported ⟨ft, nm.str, none⟩ sfx num numrest b
      suffixrest h5 h6 h7 h2

/-- Witness for C3: the general bit-size rejection applied to a concrete
s8-typed token tree with suffix ":3". -/
theorem C3_witness :
    lookupSimpleType "s8" = some .s8
  ∧ ParamFieldType.s8.supports_bit_size = false
  ∧ interpSimple [.mk .simple_field_type "s8" ⟨0, 2⟩ [],
        .mk .field_name "x" ⟨3, 4⟩ [],
        .mk .suffix_bitsize ":3" ⟨4, 6⟩ [.mk .number "3" ⟨5, 6⟩ []]]
      = .err (.custom "Bit size not supported on this type" ⟨4, 6⟩) :=
  ⟨rfl, rfl,
    C3_bit_size_support.2.2.2 "s8" .s8 (.mk .simple_field_type "s8" ⟨0, 2⟩ [])
      (.mk .field_name "x" ⟨3, 4⟩ [])
      (.mk .suffix_bitsize ":3" ⟨4, 6⟩ [.mk .number "3" ⟨5, 6⟩ []])
      (.mk .number "3" ⟨5, 6⟩ []) 3 [] [] rfl rfl rfl rfl rfl rfl rfl⟩

/-- C6: for dummy/padding definitions an array-length suffix yields the
byte-count variant, a bit-size suffix yields the bit-count variant, and
absence of both leaves the length unset; the three spec examples evaluate
accordingly, the third with default -1. -/
theorem C6_dummy_lengths :
    ( parse_param_field_def "dummy8 reserve_last[32]"
        = .ok ⟨.dummy8 (some (.Bytes 32)), "reserve_last", none⟩)
  ∧ ( parse_param_field_def "dummy8 disableParamReserve1:7"
        = .ok ⟨.dummy8 (some (.Bits 7)), "disableParamReserve1", none⟩)
  ∧ ( parse_param_field_def "dummy8 pad_3[16] = -1"
        = .ok ⟨.dummy8 (some (.Bytes 16)), "pad_3", some ⟨-1, 0⟩⟩)
  ∧ (∀ (d nm sfx num : PestPair) (k : Nat) (numrest : List PestPair),
        d.rule = .dummy_field_type → nm.rule = .field_name →
        sfx.rule = .suffix_array → sfx.inner = num :: numrest →
        rustParseUsize num.str = some k →
        interpDummy [d, nm, sfx] = .ok ⟨.dummy8 (some (.Bytes k)), nm.str, none⟩)
  ∧ (∀ (d nm sfx num : PestPair) (k : Nat) (numrest : List PestPair),
        d.rule = .dummy_field_type → nm.rule = .field_name →
        sfx.rule = .suffix_bitsize → sfx.inner = num :: numrest →
        rustParseU8 num.str = some k →
        interpDummy [d, nm, sfx] = .ok ⟨.dummy8 (some (.Bits k)), nm.str, none⟩)
  ∧ (∀ (d nm : PestPair),
        d.rule = .dummy_field_type → nm.rule = .field_name →
        interpDummy [d, nm] = .ok ⟨.dummy8 none, nm.str, none⟩) := by
  refine ⟨rfl, rfl, rfl, ?_, ?_, ?_⟩
  · intro d nm sfx num k numrest h1 h2 h3 h4 h5
    rw [interpDummy_shape d nm [sfx] h1 h2]
    simp only [dummyLoop, h3, getArraySize_cons_ok sfx num numrest k h3 h4 h5]
  · intro d nm sfx num k numrest h1 h2 h3 h4 h5
    rw [interpDummy_shape d nm [sfx] h1 h2]
    simp only [dummyLoop, h3, getBitsize_cons_ok sfx num numrest k h3 h4 h5]
  · intro d nm h1 h2
    rw [interpDummy_shape d nm [] h1 h2]
    rfl

/-- Witness for C6: the byte-count branch applied to a concrete token tree
with suffix "[32]". -/
theorem C6_witness :
    interpDummy [.mk .dummy_field_type "dummy8" ⟨0, 6⟩ [],
        .mk .field_name "pad" ⟨7, 10⟩ [],
        .mk .suffix_array "[32]" ⟨10, 14⟩ [.mk .number "32" ⟨11, 13⟩ []]]
      = .ok ⟨.dummy8 (some (.Bytes 32)), "pad", none⟩ :=
  C6_dummy_lengths.2.2.2.1 (.mk .dummy_field_type "dummy8" ⟨0, 6⟩ [])
    (.mk .field_name "pad" ⟨7, 10⟩ [])
    (.mk .suffix_array "[32]" ⟨10, 14⟩ [.mk .number "32" ⟨11, 13⟩ []])
    (.mk .number "32" ⟨11, 13⟩ []) 32 [] rfl rfl rfl rfl rfl

/-- C7: "fixstr texName_00[16]" parses to the narrow fixed string of length
16 and "fixstrW texName_00[16]" to the wide one; every successful
`def_fixstr` interpretation has an absent default value; the narrow/wide
variant is selected by which literal matched; and appending a default or
bit-width suffix, or omitting the mandatory length, makes the parse fail. -/
theorem C7_fixstr_parsing :
    ( parse_param_field_def "fixstr texName_00[16]"
        = .ok ⟨.fixstr 16, "texName_00", none⟩)
  ∧ ( parse_param_field_def "fixstrW texName_00[16]"
        = .ok ⟨.fixstrW 16, "texName_00", none⟩)
  ∧ (∀ (inner : List PestPair) (fd : ParamFieldDef),
        interpFixstr inner = .ok fd → fd.default_value = none)
  ∧ (∀ (ft nm sfx num : PestPair) (k : Nat) (numrest : List PestPair),
        sfx.rule = .suffix_array → sfx.inner = num :: numrest →
        rustParseUsize num.str = some k →
        (ft.str = "fixstr" →
          interpFixstr [ft, nm, sfx] = .ok ⟨.fixstr k, nm.str, none⟩)
        ∧ (ft.str = "fixstrW" →
          interpFixstr [ft, nm, sfx] = .ok ⟨.fixstrW k, nm.str, none⟩))
  ∧ (∃ e, parse_param_field_def "fixstr texName_00[16] = 3" = .err e)
  ∧ (∃ e, parse_param_field_def "fixstrW texName_00[16]:2" = .err e)
  ∧ (∃ e, parse_param_field_def "fixstr texName_00" = .err e) := by
  refine ⟨rfl, rfl, ?_, ?_, ⟨_, rfl⟩, ⟨_, rfl⟩, ⟨_, rfl⟩⟩
  · intro inner fd h
    match inner with
    | [] => exact Outcome.noConfusion h
    | [ft] => exact Outcome.noConfusion h
    | [ft, nm] => exact Outcome.noConfusion h
    | ft :: nm :: sa :: tl =>
      simp only [interpFixstr] at h
      split at h
      · unfold fixstrResult at h
        cases hk : fixstrKind ft.str _ with
        | none => rw [hk] at h; exact Outcome.noConfusion h
        | some k =>
          rw [hk] at h
          cases h
          rfl
      · exact Outcome.noConfusion h
      · exact Outcome.noConfusion h
  · intro ft nm sfx num k numrest h1 h2 h3
    constructor
    · intro hs
      simp only [interpFixstr, getArraySize_cons_ok sfx num numrest k h1 h2 h3,
        fixstrResult, fixstrKind, hs]
    · intro hs
      simp only [interpFixstr, getArraySize_cons_ok sfx num numrest k h1 h2 h3,
        fixstrResult, fixstrKind, hs]

/-- Witness for C7: the narrow and wide selection applied to concrete token
trees with suffix "[16]". -/
theorem C7_witness :
    interpFixstr [.mk .fixstr_type "fixstr" ⟨0, 6⟩ [],
        .mk .field_name "texName_00" ⟨7, 17⟩ [],
        .mk .suffix_array "[16]" ⟨17, 21⟩ [.mk .number "16" ⟨18, 20⟩ []]]
      = .ok ⟨.fixstr 16, "texName_00", none⟩ :=
  (C7_fixstr_parsing.2.2.2.1 (.mk .fixstr_type "fixstr" ⟨0, 6⟩ [])
    (.mk .field_name "texName_00" ⟨7, 17⟩ [])
    (.mk .suffix_array "[16]" ⟨17, 21⟩ [.mk .number "16" ⟨18, 20⟩ []])
    (.mk .number "16" ⟨18, 20⟩ []) 16 [] rfl rfl rfl).1 rfl

/-- C9: inside `parse_param_field_def`, `set_bit_size` is only invoked
after `supports_bit_size` returned true for the same field type, so its
"Bit size not supported" panic branch is unreachable from any call, both
over arbitrary token trees and over arbitrary input strings. -/
theorem C9_set_bit_size_guarded :
    (∀ pairs : List PestPair, isBitSizePanic (interpDef pairs) = false)
  ∧ (∀ s : String, isBitSizePanic (parse_param_field_def s) = false) := by
  refine ⟨interpDef_nbp, fun s => ?_⟩
  unfold parse_param_field_def
  cases tokenize s with
  | error e => rfl
  | ok pairs => exact interpDef_nbp pairs

/-- C10: `EditFlags::from_str` succeeds on every input, with `wrap` set
exactly when "Wrap" occurs as a substring and `lock` exactly when "Lock"
occurs as a substring. -/
theorem C10_edit_flags_total (s : String) :
    EditFlags.from_str s
        = .ok ⟨containsSub "Wrap".data s.data, containsSub "Lock".data s.data⟩
  ∧ (containsSub "Wrap".data s.data = true ↔ "Wrap".data <:+: s.data)
  ∧ (containsSub "Lock".data s.data = true ↔ "Lock".data <:+: s.data) :=
  ⟨rfl, containsSub_iff _ _, containsSub_iff _ _⟩

theorem get_or_error_ok_inv (m : List (String × String)) (k v : String)
    (h : get_or_error m k = .ok v) : lookupKV m k = some v := by
  unfold get_or_error at h
  cases hl : lookupKV m k with
  | none => rw [hl] at h; exact Except.noConfusion h
  | some w =>
    rw [hl] at h
    have h' : Except.ok (ε := ParamdefDeserializeError) w = .ok v := h
    injection h' with h''
    rw [h'']

theorem parsedOr_ok_inv {α : Type} (o : Option α) (e : ParamdefDeserializeError) (v : α)
    (h : parsedOr o e = .ok v) : o = some v := by
  cases o with
  | none => exact Except.noConfusion h
  | some w =>
    have h' : Except.ok (ε := ParamdefDeserializeError) w = .ok v := h
    injection h' with h''
    rw [h'']

theorem endian_from_str_inv (s : String) (en : ParamdefEndian)
    (h : ParamdefEndian.from_str s = some en) :
    ∃ b, rustParseBool s = some b ∧ en = .ofBool b := by
  unfold ParamdefEndian.from_str at h
  cases hb : rustParseBool s with
  | none => rw [hb] at h; exact Option.noConfusion h
  | some b =>
    rw [hb] at h
    have h' : some (ParamdefEndian.ofBool b) = some en := h
    injection h' with h''
    exact ⟨b, rfl, h''.symm⟩

theorem format_from_str_inv (s : String) (sf : ParamdefFormat)
    (h : ParamdefFormat.from_str s = some sf) :
    ∃ b, rustParseBool s = some b ∧ sf = .ofBool b := by
  unfold ParamdefFormat.from_str at h
  cases hb : rustParseBool s with
  | none => rw [hb] at h; exact Option.noConfusion h
  | some b =>
    rw [hb] at h
    have h' : some (ParamdefFormat.ofBool b) = some sf := h
    injection h' with h''
    exact ⟨b, rfl, h''.symm⟩

theorem headerOf_bigendian (cfg : List (String × String))
    (hdr : String × Nat × ParamdefEndian × ParamdefFormat × Nat)
    (h : headerOf cfg = .ok hdr) :
    ∃ t b, lookupKV cfg "BigEndian" = some t ∧ rustParseBool t = some b
      ∧ hdr.2.2.1 = ParamdefEndian.ofBool b
      ∧ hdr.2.2.2.1 = ParamdefFormat.ofBool b := by
  unfold headerOf at h
  simp only [bind, Except.bind] at h
  split at h
  · exact Except.noConfusion h
  · rename_i pt hpt
    split at h
    · exact Except.noConfusion h
    · rename_i dvs hdvs
      split at h
      · exact Except.noConfusion h
      · rename_i dv hdv
        split at h
        · exact Except.noConfusion h
        · rename_i bes hbes
          split at h
          · exact Except.noConfusion h
          · rename_i en hen
            split at h
            · exact Except.noConfusion h
            · rename_i bes2 hbes2
              split at h
              · exact Except.noConfusion h
              · rename_i sf hsf
                split at h
                · exact Except.noConfusion h
                · rename_i fvs hfvs
                  split at h
                  · exact Except.noConfusion h
                  · rename_i fv hfv
                    cases h
                    have hbeq : bes = bes2 := Except.ok.inj hbes2
                    subst hbeq
                    have hlook := get_or_error_ok_inv _ _ _ hbes
                    have hen' := parsedOr_ok_inv _ _ _ hen
                    obtain ⟨b, hb, hben⟩ := endian_from_str_inv _ _ hen'
                    have hsf' := parsedOr_ok_inv _ _ _ hsf
                    obtain ⟨b2, hb2, hbsf⟩ := format_from_str_inv _ _ hsf'
                    rw [hb] at hb2
                    have hbb : b = b2 := Option.some.inj hb2
                    subst hbb
                    exact ⟨_, _, hlook, hb, hben, hbsf⟩

theorem deserialize_def_ok_inv (root : Xml) (d : ParamDef)
    (h : deserialize_def root = .ok d) :
    root.tagName = "PARAMDEF"
  ∧ ∃ cfg fields_node hdr,
      buildRootConfig root.children [] none = .ok (cfg, some fields_node)
    ∧ headerOf cfg = .ok hdr
    ∧ parseFields fields_node.children = .ok d.fields
    ∧ d.param_type = hdr.1 ∧ d.data_version = hdr.2.1 ∧ d.endian = hdr.2.2.1
    ∧ d.string_format = hdr.2.2.2.1 ∧ d.format_version = hdr.2.2.2.2 := by
  unfold deserialize_def at h
  split at h
  · rename_i htag
    refine ⟨by simpa using htag, ?_⟩
    split at h
    · exact Outcome.noConfusion h
    · rename_i root_config fieldsOpt heq
      split at h
      · exact Outcome.noConfusion h
      · rename_i fields_node
        split at h
        · exact Outcome.noConfusion h
        · rename_i hdr heq2
          split at h
          · rename_i fs heq3
            cases h
            exact ⟨root_config, fields_node, hdr, heq, heq2, heq3, rfl, rfl, rfl, rfl, rfl⟩
          · exact Outcome.noConfusion h
          · exact Outcome.noConfusion h
  · exact Outcome.noConfusion h

theorem parseFields_ok_forall₂ : ∀ (ns : List Xml) (fs : List ParamField),
    parseFields ns = .ok fs →
    List.Forall₂ (fun n f => parse_field_node n = .ok f) ns fs := by
  intro ns
  induction ns with
  | nil =>
    intro fs h
    cases h
    exact List.Forall₂.nil
  | cons n rest ih =>
    intro fs h
    simp only [parseFields] at h
    split at h
    · rename_i f hpf
      split at h
      · rename_i fs' hrest
        cases h
        exact List.Forall₂.cons hpf (ih _ hrest)
      · exact Outcome.noConfusion h
      · exact Outcome.noConfusion h
    · exact Outcome.noConfusion h
    · exact Outcome.noConfusion h

theorem parseFields_ok_of : ∀ (ns : List Xml),
    (∀ c ∈ ns, ∃ f, parse_field_node c = .ok f) →
    ∃ fs, parseFields ns = .ok fs
      ∧ List.Forall₂ (fun n f => parse_field_node n = .ok f) ns fs := by
  intro ns
  induction ns with
  | nil => intro _; exact ⟨[], rfl, List.Forall₂.nil⟩
  | cons n rest ih =>
    intro h
    obtain ⟨f, hf⟩ := h n (List.mem_cons_self n rest)
    obtain ⟨fs, hfs, hfa⟩ := ih (fun c hc => h c (List.mem_cons_of_mem n hc))
    refine ⟨f :: fs, ?_, List.Forall₂.cons hf hfa⟩
    simp only [parseFields, hf, hfs]

theorem rustParseBool_true_or_false (t : String) (b : Bool)
    (h : rustParseBool t = some b) :
    (t = "true" ∧ b = true) ∨ (t = "false" ∧ b = false) := by
  unfold rustParseBool at h
  split at h
  · rename_i hbe
    have h' : some true = some b := h
    exact Or.inl ⟨eq_of_beq hbe, (Option.some.inj h').symm⟩
  · rename_i hbe
    split at h
    · rename_i hbe2
      have h' : some false = some b := h
      exact Or.inr ⟨eq_of_beq hbe2, (Option.some.inj h').symm⟩
    · exact Option.noConfusion h

theorem buildRootConfig_blank : ∀ (l : List Xml) (cfg : List (String × String))
    (f : Option Xml),
    (∃ c ∈ l, c.tagName ≠ "Fields" ∧ c.textContent = none) →
    ∃ nm, buildRootConfig l cfg f = .error (.XmlBlankElement nm)
      ∧ ∃ c', c' ∈ l ∧ c'.tagName = nm ∧ c'.tagName ≠ "Fields"
          ∧ c'.textContent = none := by
  intro l
  induction l with
  | nil =>
    intro cfg f h
    obtain ⟨c, hc, -⟩ := h
    exact absurd hc (List.not_mem_nil c)
  | cons c rest ih =>
    intro cfg f h
    by_cases htag : c.tagName = "Fields"
    · have hbeq : (c.tagName == "Fields") = true := beq_iff_eq.mpr htag
      obtain ⟨c0, hc0mem, hc0⟩ := h
      have hmem : c0 ∈ rest := by
        rcases List.mem_cons.mp hc0mem with heqc | h'
        · subst heqc
          exact absurd htag hc0.1
        · exact h'
      obtain ⟨nm, hrun, c', hc'mem, hw⟩ := ih cfg (some c) ⟨c0, hmem, hc0⟩
      refine ⟨nm, ?_, c', List.mem_cons_of_mem c hc'mem, hw⟩
      simp only [buildRootConfig, hbeq, if_true]
      exact hrun
    · have hbeq : (c.tagName == "Fields") = false := by
        simp [htag]
      cases htc : c.textContent with
      | none =>
        refine ⟨c.tagName, ?_, c, List.mem_cons_self c rest, rfl, htag, htc⟩
        simp only [buildRootConfig, hbeq, Bool.false_eq_true, if_false, htc]
      | some t =>
        obtain ⟨c0, hc0mem, hc0⟩ := h
        have hmem : c0 ∈ rest := by
          rcases List.mem_cons.mp hc0mem with heqc | h'
          · subst heqc
            rw [htc] at hc0
            exact absurd hc0.2 (by simp)
          · exact h'
        obtain ⟨nm, hrun, c', hc'mem, hw⟩ :=
          ih (insertKV cfg c.tagName t) f ⟨c0, hmem, hc0⟩
        refine ⟨nm, ?_, c', List.mem_cons_of_mem c hc'mem, hw⟩
        simp only [buildRootConfig, hbeq, Bool.false_eq_true, if_false, htc]
        exact hrun

theorem buildFieldConfig_skip (c : Xml) (rest : List Xml)
    (cfg : List (String × String)) (h : c.textContent = none) :
    buildFieldConfig (c :: rest) cfg = buildFieldConfig rest cfg := by
  simp only [buildFieldConfig, h]

theorem buildFieldConfig_filter : ∀ (cs : List Xml) (cfg : List (String × String)),
    buildFieldConfig (cs.filter (fun c => (Xml.textContent c).isSome)) cfg
      = buildFieldConfig cs cfg := by
  intro cs
  induction cs with
  | nil => intro cfg; rfl
  | cons c rest ih =>
    intro cfg
    cases htc : c.textContent with
    | none =>
      rw [List.filter_cons]
      simp only [htc, Option.isSome_none, Bool.false_eq_true, if_false]
      rw [buildFieldConfig_skip c rest cfg htc]
      exact ih cfg
    | some t =>
      rw [List.filter_cons]
      simp only [htc, Option.isSome_some, if_true]
      simp only [buildFieldConfig, htc]
      exact ih _

theorem parse_field_node_removeBlank (n : Xml) :
    parse_field_node n = parse_field_node (removeBlankChildren n) := by
  cases n with
  | elem t a cs =>
    simp only [parse_field_node, removeBlankChildren, Xml.attribute, Xml.children]
    rw [buildFieldConfig_filter]
  | text s => rfl

theorem optEditFlagsMeta_ok (o : Option String) : ∃ r, optEditFlagsMeta o = .ok r := by
  cases o with
  | none => exact ⟨none, rfl⟩
  | some a =>
    exact ⟨some ⟨containsSub "Wrap".data a.data, containsSub "Lock".data a.data⟩, rfl⟩

theorem optFloatMeta_ok (o : Option String)
    (h : ∀ v, o = some v → (rustParseFloat v).isSome = true) :
    ∃ r, optFloatMeta o = .ok r := by
  cases o with
  | none => exact ⟨none, rfl⟩
  | some a =>
    obtain ⟨v, hv⟩ := Option.isSome_iff_exists.mp (h a rfl)
    exact ⟨some v, by simp [optFloatMeta, hv, parsedOr, Except.map]⟩

theorem optUsizeMeta_ok (o : Option String)
    (h : ∀ v, o = some v → (rustParseUsize v).isSome = true) :
    ∃ r, optUsizeMeta o = .ok r := by
  cases o with
  | none => exact ⟨none, rfl⟩
  | some a =>
    obtain ⟨v, hv⟩ := Option.isSome_iff_exists.mp (h a rfl)
    exact ⟨some v, by simp [optUsizeMeta, hv, parsedOr, Except.map]⟩

theorem parse_field_node_ok_of_meta (c : Xml) (a : String) (fd : ParamFieldDef)
    (ha : c.attribute "Def" = some a) (hfd : parse_param_field_def a = .ok fd)
    (hm : fieldMetaOk c) : ∃ f, parse_field_node c = .ok f := by
  obtain ⟨hmin, hmax, hinc, hsort⟩ := hm
  obtain ⟨r1, h1⟩ :=
    optEditFlagsMeta_ok (lookupKV (buildFieldConfig c.children []) "EditFlags")
  obtain ⟨r2, h2⟩ := optFloatMeta_ok _ hmin
  obtain ⟨r3, h3⟩ := optFloatMeta_ok _ hmax
  obtain ⟨r4, h4⟩ := optFloatMeta_ok _ hinc
  obtain ⟨r5, h5⟩ := optUsizeMeta_ok _ hsort
  have hass : assembleFieldMeta fd (buildFieldConfig c.children [])
      = .ok { field_def := fd,
              display_name := lookupKV (buildFieldConfig c.children []) "DisplayName",
              enum_tdf := lookupKV (buildFieldConfig c.children []) "Enum",
              description := lookupKV (buildFieldConfig c.children []) "Description",
              printf_format := lookupKV (buildFieldConfig c.children []) "DisplayFormat",
              edit_flags := r1, minimum := r2, maximum := r3, increment := r4,
              sort_id := r5 } := by
    unfold assembleFieldMeta
    simp only [bind, Except.bind, h1, h2, h3, h4, h5]
  exact ⟨{ field_def := fd,
           display_name := lookupKV (buildFieldConfig c.children []) "DisplayName",
           enum_tdf := lookupKV (buildFieldConfig c.children []) "Enum",
           description := lookupKV (buildFieldConfig c.children []) "Description",
           printf_format := lookupKV (buildFieldConfig c.children []) "DisplayFormat",
           edit_flags := r1, minimum := r2, maximum := r3, increment := r4,
           sort_id := r5 },
    by simp only [parse_field_node, ha, hfd, hass]⟩

/-- C2: whenever `deserialize_def` succeeds, both the endianness and the
string encoding of the result were parsed from the text of the same root
configuration key "BigEndian": that text is the boolean literal "true"
(giving big-endian and UTF-16) or "false" (giving little-endian and the
legacy 8-bit encoding), and the two enums always agree. -/
theorem C2_endian_and_format_share_key (root : Xml) (d : ParamDef)
    (h : deserialize_def root = .ok d) :
    ∃ cfg fields_node t,
      buildRootConfig root.children [] none = .ok (cfg, some fields_node)
    ∧ lookupKV cfg "BigEndian" = some t
    ∧ ((t = "true" ∧ d.endian = .Big ∧ d.string_format = .UTF16)
        ∨ (t = "false" ∧ d.endian = .Little ∧ d.string_format = .ShiftJIS))
    ∧ (d.endian = .Big ↔ d.string_format = .UTF16) := by
  obtain ⟨-, cfg, fields_node, hdr, hcfg, hhdr, -, -, -, hend, hsf, -⟩ :=
    deserialize_def_ok_inv root d h
  obtain ⟨t, b, hlook, hbool, hben, hbsf⟩ := headerOf_bigendian cfg hdr hhdr
  refine ⟨cfg, fields_node, t, hcfg, hlook, ?_, ?_⟩
  · rcases rustParseBool_true_or_false t b hbool with ⟨ht, hb⟩ | ⟨ht, hb⟩
    · subst hb
      exact Or.inl ⟨ht, by rw [hend, hben]; rfl, by rw [hsf, hbsf]; rfl⟩
    · subst hb
      exact Or.inr ⟨ht, by rw [hend, hben]; rfl, by rw [hsf, hbsf]; rfl⟩
  · rw [hend, hben, hsf, hbsf]
    cases b <;> simp [ParamdefEndian.ofBool, ParamdefFormat.ofBool]

/-- Witness for C2: the big-endian document `c2doc` deserializes, and its
endianness and string format both follow the "BigEndian" text "true". -/
theorem C2_witness :
    deserialize_def c2doc = .ok c2def
  ∧ (∃ cfg fields_node t,
      buildRootConfig c2doc.children [] none = .ok (cfg, some fields_node)
    ∧ lookupKV cfg "BigEndian" = some t
    ∧ ((t = "true" ∧ c2def.endian = .Big ∧ c2def.string_format = .UTF16)
        ∨ (t = "false" ∧ c2def.endian = .Little ∧ c2def.string_format = .ShiftJIS))
    ∧ (c2def.endian = .Big ↔ c2def.string_format = .UTF16)) :=
  ⟨rfl, C2_endian_and_format_share_key c2doc c2def rfl⟩

/-- C5: `deserialize_def` returns an assembled definition only when the
root tag matches, the configuration extraction and the "Fields" container
succeed, all required root keys parse, and every child of "Fields" parses,
with the result containing exactly the parsed fields in document order;
errors leave no partial result by the shape of the result type. -/
theorem C5_no_partial_result (root : Xml) (d : ParamDef)
    (h : deserialize_def root = .ok d) :
    root.tagName = "PARAMDEF"
  ∧ ∃ cfg fields_node hdr,
      buildRootConfig root.children [] none = .ok (cfg, some fields_node)
    ∧ headerOf cfg = .ok hdr
    ∧ List.Forall₂ (fun n f => parse_field_node n = .ok f) fields_node.children d.fields
    ∧ d.fields.length = fields_node.children.length := by
  obtain ⟨htag, cfg, fn, hdr, h1, h2, h3, -⟩ := deserialize_def_ok_inv root d h
  have hfa := parseFields_ok_forall₂ _ _ h3
  exact ⟨htag, cfg, fn, hdr, h1, h2, hfa, hfa.length_eq.symm⟩

/-- Witness for C5: the one-field document `c5doc` deserializes to `c5def`
and satisfies the success characterization. -/
theorem C5_witness :
    deserialize_def c5doc = .ok c5def
  ∧ (c5doc.tagName = "PARAMDEF"
    ∧ ∃ cfg fields_node hdr,
        buildRootConfig c5doc.children [] none = .ok (cfg, some fields_node)
      ∧ headerOf cfg = .ok hdr
      ∧ List.Forall₂ (fun n f => parse_field_node n = .ok f) fields_node.children
          c5def.fields
      ∧ c5def.fields.length = fields_node.children.length) :=
  ⟨rfl, C5_no_partial_result c5doc c5def rfl⟩

/-- C8: a root child element with no text content makes `deserialize_def`
fail with a blank-element error naming a blank child, while a field child
with no text is silently omitted from the metadata map and never causes an
error (dropping such children does not change `parse_field_node`). -/
theorem C8_blank_text_handling :
    (∀ (root : Xml) (c : Xml), root.tagName = "PARAMDEF" → c ∈ root.children →
        c.tagName ≠ "Fields" → c.textContent = none →
        ∃ nm, deserialize_def root = .err (.XmlBlankElement nm)
          ∧ ∃ c', c' ∈ root.children ∧ c'.tagName = nm ∧ c'.tagName ≠ "Fields"
              ∧ c'.textContent = none)
  ∧ (∀ (c : Xml) (rest : List Xml) (cfg : List (String × String)),
        c.textContent = none →
        buildFieldConfig (c :: rest) cfg = buildFieldConfig rest cfg)
  ∧ (∀ n : Xml, parse_field_node n = parse_field_node (removeBlankChildren n)) := by
  refine ⟨?_, buildFieldConfig_skip, parse_field_node_removeBlank⟩
  intro root c hroot hmem htag htext
  obtain ⟨nm, hrun, hw⟩ :=
    buildRootConfig_blank root.children [] none ⟨c, hmem, htag, htext⟩
  refine ⟨nm, ?_, hw⟩
  unfold deserialize_def
  simp [hroot, hrun]

/-- Witness for C8: the document `c8doc` with a blank "Blank" child fails
with the blank-element error, and a blank field child is skipped. -/
theorem C8_witness :
    (∃ nm, deserialize_def c8doc = .err (.XmlBlankElement nm)
      ∧ ∃ c', c' ∈ c8doc.children ∧ c'.tagName = nm ∧ c'.tagName ≠ "Fields"
          ∧ c'.textContent = none)
  ∧ buildFieldConfig [Xml.elem "B" [] []] [] = buildFieldConfig [] [] :=
  ⟨C8_blank_text_handling.1 c8doc (.elem "Blank" [] [])
      rfl (List.Mem.tail _ (List.Mem.head _)) (by decide) rfl,
    C8_blank_text_handling.2.1 (.elem "B" [] []) [] [] rfl⟩

/-- C4 (counterexample): the claim as stated fails on `c4doc`, whose root
metadata is valid and whose single Fields child is a `Field` element with a
parseable `Def`, yet `deserialize_def` fails because the `Minimum` metadata
text "abc" does not parse as a float. -/
theorem C4_counterexample :
    ¬ claimC4At c4doc ∧ deserialize_def c4doc = .err .XmlParsingFloat := by
  constructor
  · intro hcl
    have hwf : ∀ c ∈ c4fields.children, c.tagName = "Field"
        ∧ ∃ a fd, c.attribute "Def" = some a ∧ parse_param_field_def a = .ok fd := by
      intro c hc
      simp only [c4fields, Xml.children, List.mem_singleton] at hc
      subst hc
      exact ⟨rfl, "u8 test", ⟨.u8 none, "test", none⟩, rfl, rfl⟩
    obtain ⟨d, hd, -⟩ := hcl c4cfg c4fields rfl rfl
      ⟨("C4_PARAM", 1, .Little, .ShiftJIS, 104), rfl⟩ hwf
    rw [show deserialize_def c4doc = .err .XmlParsingFloat from rfl] at hd
    exact Outcome.noConfusion hd
  · rfl

/-- C4 (amended): with the additional hypothesis that every present
Minimum/Maximum/Increment/SortID metadata text parses at its type,
`deserialize_def` succeeds and returns exactly one pair per Fields child,
in document order. -/
theorem C4_amended_fields_parse (root : Xml) (cfg : List (String × String))
    (fields_node : Xml)
    (h1 : root.tagName = "PARAMDEF")
    (h2 : buildRootConfig root.children [] none = .ok (cfg, some fields_node))
    (h3 : ∃ hdr, headerOf cfg = .ok hdr)
    (h4 : ∀ c ∈ fields_node.children, c.tagName = "Field"
            ∧ (∃ a fd, c.attribute "Def" = some a ∧ parse_param_field_def a = .ok fd)
            ∧ fieldMetaOk c) :
    ∃ d, deserialize_def root = .ok d
      ∧ List.Forall₂ (fun n f => parse_field_node n = .ok f) fields_node.children d.fields
      ∧ d.fields.length = fields_node.children.length := by
  obtain ⟨hdr, hhdr⟩ := h3
  have hpf : ∀ c ∈ fields_node.children, ∃ f, parse_field_node c = .ok f := by
    intro c hc
    obtain ⟨-, ⟨a, fd, ha, hfd⟩, hmet⟩ := h4 c hc
    exact parse_field_node_ok_of_meta c a fd ha hfd hmet
  obtain ⟨fs, hfs, hfa⟩ := parseFields_ok_of fields_node.children hpf
  refine ⟨⟨hdr.1, hdr.2.1, hdr.2.2.1, hdr.2.2.2.1, hdr.2.2.2.2, fs⟩, ?_, hfa,
    hfa.length_eq.symm⟩
  unfold deserialize_def
  simp [h1, h2, hhdr, hfs]

/-- Witness for C4 (amended): `c4docOk`, whose field metadata all parses,
deserializes with exactly one pair for its one Fields child. -/
theorem C4_amended_witness :
    ∃ d, deserialize_def c4docOk = .ok d
      ∧ List.Forall₂ (fun n f => parse_field_node n = .ok f) c4okfields.children d.fields
      ∧ d.fields.length = c4okfields.children.length := by
  refine C4_amended_fields_parse c4docOk c4cfg c4okfields rfl rfl
    ⟨("C4_PARAM", 1, .Little, .ShiftJIS, 104), rfl⟩ ?_
  intro c hc
  simp only [c4okfields, Xml.children, List.mem_singleton] at hc
  subst hc
  refine ⟨rfl, ⟨"u8 test", ⟨.u8 none, "test", none⟩, rfl, rfl⟩, ?_, ?_, ?_, ?_⟩
  · intro v hv
    have h2 : some "-1.5" = some v := hv
    rw [← Option.some.inj h2]
    rfl
  · intro v hv
    exact Option.noConfusion hv
  · intro v hv
    exact Option.noConfusion hv
  · intro v hv
    have h2 : some "3" = some v := hv
    rw [← Option.some.inj h2]
    rfl

end Paramdex
